import Mathlib

set_option maxHeartbeats 1000000
set_option maxRecDepth 10000

/-!
Verification development for the LangExtract Studio repository
(src/LangExtract/app.py and src/LangExtract/medical_extraction.py).

Strings from the Python source are embedded as lists of characters
(`Str := List Char`); Python string operations (`in`, `strip`, `split`)
are translated below and proved correct against their mathematical
characterisations.
-/

namespace LangX

abbrev Str := List Char

/-- Whitespace test used by Python's default `str.strip`. -/
def ws (c : Char) : Bool := c.isWhitespace

/-- Python `str.strip()`: drop leading and trailing whitespace. -/
def pyStrip (l : Str) : Str :=
  ((l.dropWhile ws).reverse.dropWhile ws).reverse

/-- Does `t` start with `p`?  Translation of "t[0:len(p)] == p". -/
def startsW : Str → Str → Bool
  | [], _ => true
  | _ :: _, [] => false
  | p :: ps, t :: ts => p == t && startsW ps ts

/-- Python's substring operator `pat in text`. -/
def containsSub : Str → Str → Bool
  | pat, [] => startsW pat []
  | pat, c :: rest => startsW pat (c :: rest) || containsSub pat rest

/-- Python `s.split(sep)` for a one-character separator. -/
def splitSep (sep : Char) : Str → List Str
  | [] => [[]]
  | c :: rest =>
    if c == sep then [] :: splitSep sep rest
    else
      match splitSep sep rest with
      | [] => [[c]]
      | f :: r => (c :: f) :: r

/-- Python dict assignment `m[k] = v`: update in place when the key is
present, otherwise append at the end (insertion order preserved). -/
def dictInsert (m : List (Str × Str)) (k v : Str) : List (Str × Str) :=
  if m.any (fun p => p.1 == k) then
    m.map (fun p => if p.1 == k then (k, v) else p)
  else m ++ [(k, v)]

/-- Python slice `doc[a:b]` for `a ≤ b`. -/
def slice (doc : Str) (a b : Nat) : Str := (doc.drop a).take (b - a)

/-! ### Correctness of the string helpers -/

theorem startsW_iff (p t : Str) : startsW p t = true ↔ ∃ v, t = p ++ v := by
  induction p generalizing t with
  | nil => simp [startsW]
  | cons a ps ih =>
    cases t with
    | nil => simp [startsW]
    | cons b ts =>
      simp only [startsW, Bool.and_eq_true, beq_iff_eq, ih, List.cons_append,
        List.cons.injEq]
      constructor
      · rintro ⟨rfl, v, rfl⟩
        exact ⟨v, rfl, rfl⟩
      · rintro ⟨v, rfl, rfl⟩
        exact ⟨rfl, v, rfl⟩

theorem containsSub_iff (p t : Str) :
    containsSub p t = true ↔ ∃ u v, t = u ++ p ++ v := by
  induction t with
  | nil =>
    simp only [containsSub, startsW_iff]
    constructor
    · rintro ⟨v, hv⟩
      exact ⟨[], v, by simpa using hv⟩
    · rintro ⟨u, v, huv⟩
      have hu : u = [] := by
        cases u with
        | nil => rfl
        | cons a us => simp at huv
      subst hu
      exact ⟨v, by simpa using huv⟩
  | cons c rest ih =>
    simp only [containsSub, Bool.or_eq_true, startsW_iff, ih]
    constructor
    · rintro (⟨v, hv⟩ | ⟨u, v, huv⟩)
      · exact ⟨[], v, by simpa using hv⟩
      · exact ⟨c :: u, v, by simp [huv]⟩
    · rintro ⟨u, v, huv⟩
      cases u with
      | nil => exact Or.inl ⟨v, by simpa using huv⟩
      | cons a us =>
        simp only [List.cons_append, List.cons.injEq] at huv
        exact Or.inr ⟨us, v, huv.2⟩

theorem take_of_startsW (p t : Str) (h : startsW p t = true) :
    t.take p.length = p := by
  rcases (startsW_iff p t).mp h with ⟨v, rfl⟩
  simp

theorem startsW_drop_append (a b v : Str) (p : Nat)
    (h : startsW a (b.drop p) = true) :
    startsW a ((b ++ v).drop p) = true := by
  rcases (startsW_iff _ _).mp h with ⟨w, hw⟩
  refine (startsW_iff _ _).mpr ⟨w ++ v.drop (p - b.length), ?_⟩
  rw [List.drop_append_eq_append_drop, hw]
  simp

theorem head?_dropWhile_not (P : Char → Bool) (l : Str) (c : Char)
    (h : (l.dropWhile P).head? = some c) : P c = false := by
  induction l with
  | nil => simp [List.dropWhile] at h
  | cons a rest ih =>
    rw [List.dropWhile_cons] at h
    by_cases hPa : P a = true
    · rw [if_pos hPa] at h
      exact ih h
    · rw [if_neg hPa] at h
      simp only [List.head?_cons, Option.some.injEq] at h
      subst h
      exact Bool.eq_false_iff.mpr hPa

theorem containsSub_dropWhile_left (h : Char) (p t : Str)
    (hws : ws h = false) (hc : containsSub (h :: p) t = true) :
    containsSub (h :: p) (t.dropWhile ws) = true := by
  induction t with
  | nil => simp [containsSub, startsW] at hc
  | cons c rest ih =>
    rw [List.dropWhile_cons]
    by_cases hwc : ws c = true
    · rw [if_pos hwc]
      have hne : (h == c) = false := by
        by_contra hne
        rw [Bool.not_eq_false, beq_iff_eq] at hne
        subst hne
        rw [hwc] at hws
        exact absurd hws (by simp)
      simp only [containsSub, startsW, hne, Bool.false_and, Bool.false_or] at hc
      exact ih hc
    · rw [if_neg hwc]
      exact hc

theorem containsSub_reverse (p t : Str) :
    containsSub p.reverse t.reverse = true ↔ containsSub p t = true := by
  simp only [containsSub_iff]
  constructor
  · rintro ⟨u, v, huv⟩
    refine ⟨v.reverse, u.reverse, ?_⟩
    have h := congrArg List.reverse huv
    simpa [List.append_assoc] using h
  · rintro ⟨u, v, rfl⟩
    exact ⟨v.reverse, u.reverse, by simp [List.append_assoc]⟩

theorem containsSub_pyStrip (p t : Str) (hne : p ≠ [])
    (hh : ∀ c, p.head? = some c → ws c = false)
    (hl : ∀ c, p.getLast? = some c → ws c = false)
    (h : containsSub p t = true) : containsSub p (pyStrip t) = true := by
  obtain ⟨h0, ps, rfl⟩ : ∃ h0 ps, p = h0 :: ps := by
    cases p with
    | nil => exact (hne rfl).elim
    | cons a l => exact ⟨a, l, rfl⟩
  have hws0 : ws h0 = false := hh h0 (by simp)
  have step1 : containsSub (h0 :: ps) (t.dropWhile ws) = true :=
    containsSub_dropWhile_left h0 ps t hws0 h
  have step2 :
      containsSub (h0 :: ps).reverse ((t.dropWhile ws).reverse) = true :=
    (containsSub_reverse _ _).mpr step1
  obtain ⟨c, hc⟩ : ∃ c, ((h0 :: ps).reverse).head? = some c := by
    cases hrev : (h0 :: ps).reverse with
    | nil => exact absurd (congrArg List.length hrev) (by simp)
    | cons a l => exact ⟨a, by simp⟩
  have hwc : ws c = false := by
    apply hl
    rw [← List.head?_reverse]
    exact hc
  obtain ⟨rs, hrs⟩ : ∃ rs, (h0 :: ps).reverse = c :: rs := by
    cases hrev : (h0 :: ps).reverse with
    | nil => rw [hrev] at hc; simp at hc
    | cons a l =>
      rw [hrev] at hc
      simp only [List.head?_cons, Option.some.injEq] at hc
      exact ⟨l, by rw [hc]⟩
  have step3 :
      containsSub (h0 :: ps).reverse
        (((t.dropWhile ws).reverse).dropWhile ws) = true := by
    rw [hrs] at step2 ⊢
    exact containsSub_dropWhile_left c rs _ hwc step2
  have step4 := (containsSub_reverse (h0 :: ps)
    ((((t.dropWhile ws).reverse).dropWhile ws).reverse)).mp
  rw [List.reverse_reverse] at step4
  exact step4 step3

theorem pyStrip_getLast?_not_ws (l : Str) (c : Char)
    (h : (pyStrip l).getLast? = some c) : ws c = false := by
  unfold pyStrip at h
  rw [List.getLast?_reverse] at h
  exact head?_dropWhile_not ws _ c h

theorem pyStrip_head?_not_ws (l : Str) (c : Char)
    (h : (pyStrip l).head? = some c) : ws c = false := by
  unfold pyStrip at h
  rw [List.head?_reverse] at h
  have hA : ((l.dropWhile ws).reverse).getLast? = some c := by
    conv_lhs =>
      rw [← List.takeWhile_append_dropWhile ws (l.dropWhile ws).reverse]
    rw [List.getLast?_append, h]
    rfl
  rw [List.getLast?_reverse] at hA
  exact head?_dropWhile_not ws _ c hA

theorem mem_takeWhile_true (P : Char → Bool) (l : Str) :
    ∀ c ∈ l.takeWhile P, P c = true := by
  induction l with
  | nil => simp
  | cons a rest ih =>
    intro c hc
    rw [List.takeWhile_cons] at hc
    by_cases hPa : P a = true
    · rw [if_pos hPa] at hc
      rcases List.mem_cons.mp hc with rfl | hc
      · exact hPa
      · exact ih c hc
    · rw [if_neg hPa] at hc
      exact absurd hc (List.not_mem_nil c)

theorem mem_dropWhile_nil (P : Char → Bool) (l : Str)
    (h : l.dropWhile P = []) : ∀ c ∈ l, P c = true := by
  induction l with
  | nil => simp
  | cons a rest ih =>
    rw [List.dropWhile_cons] at h
    by_cases hPa : P a = true
    · rw [if_pos hPa] at h
      intro c hc
      rcases List.mem_cons.mp hc with rfl | hc
      · exact hPa
      · exact ih h c hc
    · rw [if_neg hPa] at h
      exact absurd h (by simp)

theorem all_ws_of_pyStrip_nil (s : Str) (h : pyStrip s = []) :
    ∀ c ∈ s, ws c = true := by
  unfold pyStrip at h
  rw [List.reverse_eq_nil_iff] at h
  have hA : ∀ c ∈ (s.dropWhile ws).reverse, ws c = true :=
    mem_dropWhile_nil ws _ h
  intro c hc
  rw [← List.takeWhile_append_dropWhile ws s] at hc
  rcases List.mem_append.mp hc with hc | hc
  · exact mem_takeWhile_true ws s c hc
  · exact hA c (List.mem_reverse.mpr hc)

theorem containsSub_singleton (c : Char) (t : Str) :
    containsSub [c] t = true ↔ c ∈ t := by
  rw [containsSub_iff]
  constructor
  · rintro ⟨u, v, rfl⟩
    simp
  · intro hc
    rcases List.append_of_mem hc with ⟨u, v, rfl⟩
    exact ⟨u, v, by simp⟩

theorem splitSep_ne_nil (sep : Char) (s : Str) : splitSep sep s ≠ [] := by
  cases s with
  | nil => simp [splitSep]
  | cons a rest =>
    rw [splitSep]
    by_cases ha : (a == sep) = true
    · rw [if_pos ha]
      simp
    · rw [if_neg ha]
      cases splitSep sep rest with
      | nil => simp
      | cons f r => simp

theorem mem_of_mem_splitSep (sep : Char) (s : Str) :
    ∀ pair ∈ splitSep sep s, ∀ c ∈ pair, c ∈ s := by
  induction s with
  | nil =>
    intro pair hp c hc
    simp only [splitSep, List.mem_singleton] at hp
    subst hp
    exact absurd hc (List.not_mem_nil c)
  | cons a rest ih =>
    intro pair hp c hc
    rw [splitSep] at hp
    by_cases ha : (a == sep) = true
    · rw [if_pos ha] at hp
      rcases List.mem_cons.mp hp with rfl | hp
      · exact absurd hc (List.not_mem_nil c)
      · exact List.mem_cons_of_mem a (ih pair hp c hc)
    · rw [if_neg ha] at hp
      rcases hrest : splitSep sep rest with _ | ⟨f, r⟩
      · exact absurd hrest (splitSep_ne_nil sep rest)
      · rw [hrest] at hp
        rcases List.mem_cons.mp hp with rfl | hp
        · rcases List.mem_cons.mp hc with rfl | hc
          · exact List.mem_cons_self c rest
          · refine List.mem_cons_of_mem a (ih f ?_ c hc)
            rw [hrest]
            exact List.mem_cons_self f r
        · refine List.mem_cons_of_mem a (ih pair ?_ c hc)
          rw [hrest]
          exact List.mem_cons_of_mem f hp

/-! ### Data model (src/LangExtract/app.py) -/

/-- One extraction of a few-shot example: the dict built at app.py
lines 308-312 and the fields of lx.data.Extraction. -/
structure ExtractionSpec where
  extraction_class : Str
  extraction_text : Str
  attributes : List (Str × Str)
deriving DecidableEq

/-- One stored few-shot example, as kept in session_state (app.py line 326):
a text passage plus its expected extractions. -/
structure StoredExample where
  text : Str
  extractions : List ExtractionSpec
deriving DecidableEq

/-- One row of the manual example builder: the three widget values
Class, Verbatim text and Attributes (app.py lines 295-299). -/
structure RawRow where
  ext_class : Str
  ext_text : Str
  ext_attrs : Str
deriving DecidableEq

/-- Python `pair.split("=", 1)`: the part before the first `=` and the
part after it. -/
def splitFirstEq (pair : Str) : Str × Str :=
  (pair.takeWhile (fun c => !(c == '=')),
   (pair.dropWhile (fun c => !(c == '='))).tail)

/-- Attribute parsing of one builder row, app.py lines 302-307: split the
attributes field on commas, and for each fragment containing an equals
sign assign the stripped key to the stripped value in a dict. -/
def parseAttrs (ext_attrs : Str) : List (Str × Str) :=
  if (pyStrip ext_attrs).isEmpty then []
  else
    (splitSep ',' ext_attrs).foldl
      (fun attrs pair =>
        if containsSub ['='] pair then
          dictInsert attrs
            (pyStrip (splitFirstEq pair).1) (pyStrip (splitFirstEq pair).2)
        else attrs) []

/-- The new_extractions list built by the loop at app.py lines 290-312:
rows whose verbatim-text field strips to empty are skipped, others are
appended with stripped text and parsed attributes. -/
def buildNewExtractions (rows : List RawRow) : List ExtractionSpec :=
  rows.foldl
    (fun acc row =>
      if (pyStrip row.ext_text).isEmpty then acc
      else
        acc ++
          [⟨row.ext_class, pyStrip row.ext_text, parseAttrs row.ext_attrs⟩])
    []

/-- The "Add this example" button handler, app.py lines 314-328: reject
when the passage strips to empty, when no extraction row survives, or
when some extraction text is not a literal substring of the passage;
otherwise append the example with stripped passage text. -/
def addExample (ex_text : Str) (rows : List RawRow) : Option StoredExample :=
  if (pyStrip ex_text).isEmpty then none
  else if (buildNewExtractions rows).isEmpty then none
  else if (buildNewExtractions rows).any
      (fun e => !containsSub e.extraction_text ex_text) then none
  else some ⟨pyStrip ex_text, buildNewExtractions rows⟩

/-! ### Declarative reading of the builder, stated from the claim's words -/

/-- The key-value pairs named by the claim: fragments of the comma-split
that contain an equals sign, split at the first equals sign, both sides
stripped; fragments without an equals sign are dropped. -/
def attrPairs (s : Str) : List (Str × Str) :=
  (splitSep ',' s).filterMap
    (fun pair =>
      if containsSub ['='] pair then
        some (pyStrip (splitFirstEq pair).1, pyStrip (splitFirstEq pair).2)
      else none)

/-- Declarative attribute dict: the attrPairs inserted in order. -/
def specParseAttrs (s : Str) : List (Str × Str) :=
  (attrPairs s).foldl (fun m kv => dictInsert m kv.1 kv.2) []

/-- Declarative reading of the builder loop: keep exactly the rows whose
verbatim text is not whitespace-only, each mapped to its extraction. -/
def specNewExtractions (rows : List RawRow) : List ExtractionSpec :=
  (rows.filter (fun r => !(pyStrip r.ext_text).isEmpty)).map
    (fun r => ⟨r.ext_class, pyStrip r.ext_text, specParseAttrs r.ext_attrs⟩)

theorem foldl_skip_append {α β : Type} (p : α → Bool) (h : α → β)
    (l : List α) (acc : List β) :
    l.foldl (fun acc a => if p a then acc else acc ++ [h a]) acc
      = acc ++ (l.filter (fun a => !p a)).map h := by
  induction l generalizing acc with
  | nil => simp
  | cons x xs ih =>
    simp only [List.foldl_cons, List.filter_cons]
    by_cases hx : p x = true
    · rw [if_pos hx]
      simp [hx, ih]
    · have hx' : p x = false := Bool.eq_false_iff.mpr hx
      simp [hx', ih, List.append_assoc]

theorem foldl_filterMap_opt {α β γ : Type} (g : α → Option γ)
    (f : β → γ → β) (l : List α) (acc : β) :
    (l.filterMap g).foldl f acc
      = l.foldl (fun b a => match g a with | some c => f b c | none => b)
          acc := by
  induction l generalizing acc with
  | nil => rfl
  | cons x xs ih =>
    rw [List.filterMap_cons]
    cases hx : g x with
    | none => simpa [hx] using ih acc
    | some c => simp [hx, List.foldl_cons, ih]

theorem foldl_skip_all {α β γ : Type} (g : α → Option γ) (f : β → γ → β)
    (l : List α) (acc : β) (h : ∀ a ∈ l, g a = none) :
    l.foldl (fun b a => match g a with | some c => f b c | none => b) acc
      = acc := by
  induction l generalizing acc with
  | nil => rfl
  | cons x xs ih =>
    have hx := h x (List.mem_cons_self x xs)
    simp only [List.foldl_cons, hx]
    exact ih acc (fun q hq => h q (List.mem_cons_of_mem x hq))

theorem parseAttrs_eq_spec (s : Str) : parseAttrs s = specParseAttrs s := by
  unfold parseAttrs specParseAttrs attrPairs
  rw [foldl_filterMap_opt]
  by_cases hs : (pyStrip s).isEmpty = true
  · rw [if_pos hs]
    have hws : ∀ c ∈ s, ws c = true :=
      all_ws_of_pyStrip_nil s (List.isEmpty_iff.mp hs)
    have hnone : ∀ pair ∈ splitSep ',' s,
        containsSub ['='] pair = false := by
      intro pair hp
      by_contra hcs
      rw [Bool.not_eq_false] at hcs
      have hmem : '=' ∈ s :=
        mem_of_mem_splitSep ',' s pair hp '='
          ((containsSub_singleton '=' pair).mp hcs)
      have : ws '=' = true := hws '=' hmem
      exact absurd this (by decide)
    refine (foldl_skip_all
      (fun pair =>
        if containsSub ['='] pair = true then
          some (pyStrip (splitFirstEq pair).1, pyStrip (splitFirstEq pair).2)
        else none)
      (fun b c => dictInsert b c.1 c.2) (splitSep ',' s) [] ?_).symm
    intro pair hp
    simp [hnone pair hp]
  · rw [if_neg hs]
    congr 1
    funext attrs pair
    by_cases hp : containsSub ['='] pair = true
    · simp [hp]
    · have hp' : containsSub ['='] pair = false := Bool.eq_false_iff.mpr hp
      simp [hp']

theorem buildNewExtractions_eq_spec (rows : List RawRow) :
    buildNewExtractions rows = specNewExtractions rows := by
  unfold buildNewExtractions specNewExtractions
  rw [foldl_skip_append]
  rw [List.nil_append]
  apply List.map_congr_left
  intro r _
  rw [parseAttrs_eq_spec]

theorem mem_buildNewExtractions_text (rows : List RawRow)
    (e : ExtractionSpec) (he : e ∈ buildNewExtractions rows) :
    ∃ raw : Str, e.extraction_text = pyStrip raw ∧ e.extraction_text ≠ [] := by
  rw [buildNewExtractions_eq_spec] at he
  unfold specNewExtractions at he
  rcases List.mem_map.mp he with ⟨r, hr, rfl⟩
  have hfil := (List.mem_filter.mp hr).2
  refine ⟨r.ext_text, rfl, ?_⟩
  simpa using hfil

/-- Every example accepted by the Add-example handler satisfies the
substring invariant with respect to its stored (stripped) text. -/
theorem addExample_invariant (ex_text : Str) (rows : List RawRow)
    (ex : StoredExample) (h : addExample ex_text rows = some ex) :
    ∀ e ∈ ex.extractions, containsSub e.extraction_text ex.text = true := by
  unfold addExample at h
  by_cases h1 : (pyStrip ex_text).isEmpty = true
  · rw [if_pos h1] at h
    exact absurd h (by simp)
  · rw [if_neg h1] at h
    by_cases h2 : (buildNewExtractions rows).isEmpty = true
    · rw [if_pos h2] at h
      exact absurd h (by simp)
    · rw [if_neg h2] at h
      by_cases h3 : (buildNewExtractions rows).any
          (fun e => !containsSub e.extraction_text ex_text) = true
      · rw [if_pos h3] at h
        exact absurd h (by simp)
      · rw [if_neg h3] at h
        have hex : ex = ⟨pyStrip ex_text, buildNewExtractions rows⟩ :=
          (Option.some.injEq _ _ ▸ h).symm
        subst hex
        intro e he
        have hsub : containsSub e.extraction_text ex_text = true := by
          by_contra hf
          apply h3
          refine List.any_eq_true.mpr ⟨e, he, ?_⟩
          simp [Bool.eq_false_iff.mpr hf]
        rcases mem_buildNewExtractions_text rows e he with ⟨raw, hraw, hne⟩
        refine containsSub_pyStrip e.extraction_text ex_text hne ?_ ?_ hsub
        · intro c hc
          rw [hraw] at hc
          exact pyStrip_head?_not_ws raw c hc
        · intro c hc
          rw [hraw] at hc
          exact pyStrip_getLast?_not_ws raw c hc

/-- C1: validation of an authored example fails, and the example is not
added, exactly when some extraction text is not a literal substring of
the passage; when every extraction text is a substring the example is
added, and the stored example satisfies the substring invariant. -/
theorem add_example_validation (ex_text : Str) (rows : List RawRow)
    (hText : (pyStrip ex_text).isEmpty = false)
    (hRows : (buildNewExtractions rows).isEmpty = false) :
    ((addExample ex_text rows).isSome = true ↔
      ∀ e ∈ buildNewExtractions rows,
        containsSub e.extraction_text ex_text = true) ∧
    (∀ ex, addExample ex_text rows = some ex →
      ∀ e ∈ ex.extractions,
        containsSub e.extraction_text ex.text = true) := by
  constructor
  · have h1 : ¬((pyStrip ex_text).isEmpty = true) := by simp [hText]
    have h2 : ¬((buildNewExtractions rows).isEmpty = true) := by
      simp [hRows]
    unfold addExample
    rw [if_neg h1, if_neg h2]
    by_cases h3 : (buildNewExtractions rows).any
        (fun e => !containsSub e.extraction_text ex_text) = true
    · rw [if_pos h3]
      simp only [Option.isSome_none, Bool.false_eq_true, false_iff]
      intro hall
      rcases List.any_eq_true.mp h3 with ⟨e, he, hbad⟩
      rw [hall e he] at hbad
      exact absurd hbad (by simp)
    · rw [if_neg h3]
      simp only [Option.isSome_some, true_iff]
      intro e he
      by_contra hf
      apply h3
      refine List.any_eq_true.mpr ⟨e, he, ?_⟩
      simp [Bool.eq_false_iff.mpr hf]
  · exact addExample_invariant ex_text rows

/-- Witness for C1 at a concrete input. -/
theorem add_example_validation_witness :
    (addExample ((" abc ").data)
        [⟨("entity").data, (" ab ").data, ("k=v").data⟩]).isSome = true := by
  have h := add_example_validation ((" abc ").data)
    [⟨("entity").data, (" ab ").data, ("k=v").data⟩] (by decide) (by decide)
  exact h.1.mpr (by decide)

/-- C10: the builder loop equals its declarative reading: rows whose
verbatim text strips to empty are excluded; the attributes string is
split on commas, fragments with an equals sign become stripped key-value
pairs, fragments without one are dropped. -/
theorem builder_rows_semantics (rows : List RawRow) :
    buildNewExtractions rows = specNewExtractions rows :=
  buildNewExtractions_eq_spec rows

/-! ### Sidebar configuration and the Run Extraction gate (app.py) -/

/-- The provider selectbox (app.py line 140). -/
inductive Provider where
  | gemini
  | openai
  | ollama
deriving DecidableEq

/-- fence_output per provider branch (app.py lines 145-172). -/
def fenceOutputOf : Provider → Bool
  | .gemini => true
  | .openai => true
  | .ollama => false

/-- use_schema per provider branch (app.py lines 145-172). -/
def useSchemaOf : Provider → Bool
  | .gemini => true
  | .openai => false
  | .ollama => false

/-- Python truthiness of an optional string (None and the empty string
are falsy). -/
def pyTruthy : Option Str → Bool
  | none => false
  | some s => !s.isEmpty

/-- The widget and session values the Run Extraction step reads. -/
structure AppState where
  api_provider : Provider
  api_key : Option Str
  ollama_url : Str
  prompt_value : Str
  classes_text : Str
  examples : List StoredExample
  input_text : Option Str
  model_id : Str
  extraction_passes : Nat
  max_workers : Nat
  max_char_buffer : Nat
deriving DecidableEq

/-- model_url per provider branch: None except for Ollama (lines 155,
165, 172). -/
def modelUrlOf (s : AppState) : Option Str :=
  match s.api_provider with
  | .ollama => some s.ollama_url
  | _ => none

/-- has_key check, app.py line 362. -/
def has_key (s : AppState) : Bool :=
  if s.api_provider = Provider.ollama then true else pyTruthy s.api_key

/-- prompt_filled check, app.py line 359: bool(v and v.strip()). -/
def prompt_filled (s : AppState) : Bool :=
  !s.prompt_value.isEmpty && !(pyStrip s.prompt_value).isEmpty

/-- has_examples check, app.py line 360. -/
def has_examples (s : AppState) : Bool := !s.examples.isEmpty

/-- has_input check, app.py line 361: bool(t and t.strip()). -/
def has_input (s : AppState) : Bool :=
  match s.input_text with
  | none => false
  | some t => !t.isEmpty && !(pyStrip t).isEmpty

/-- all_ready, app.py line 374: every entry of the checks list holds. -/
def all_ready (s : AppState) : Bool :=
  has_key s && prompt_filled s && has_examples s && has_input s

/-- lx.data.ExampleData as built by build_lx_examples. -/
structure LxExample where
  text : Str
  extractions : List ExtractionSpec
deriving DecidableEq

/-- build_lx_examples, app.py lines 380-392: the stored examples mapped
field by field onto lx.data.ExampleData, with no validation. -/
def build_lx_examples (examples : List StoredExample) : List LxExample :=
  examples.map (fun ex =>
    ⟨ex.text,
     ex.extractions.map (fun e =>
       ⟨e.extraction_class, e.extraction_text, e.attributes⟩)⟩)

/-- The keyword arguments handed to lx.extract, app.py lines 398-414. -/
structure ExtractKwargs where
  text_or_documents : Str
  prompt_description : Str
  examples : List LxExample
  model_id : Str
  extraction_passes : Nat
  max_workers : Nat
  fence_output : Bool
  use_schema_constraints : Bool
  api_key : Option Str
  model_url : Option Str
  max_char_buffer : Option Nat
deriving DecidableEq

/-- Construction of extract_kwargs, app.py lines 398-414: api_key,
model_url and max_char_buffer are added only when truthy (positive for
the buffer); the flags are threaded through unchanged. -/
def mkExtractKwargs (s : AppState) : ExtractKwargs :=
  ⟨(s.input_text).getD [],
   s.prompt_value,
   build_lx_examples s.examples,
   s.model_id,
   s.extraction_passes,
   s.max_workers,
   fenceOutputOf s.api_provider,
   useSchemaOf s.api_provider,
   if pyTruthy s.api_key then s.api_key else none,
   if pyTruthy (modelUrlOf s) then modelUrlOf s else none,
   if 0 < s.max_char_buffer then some s.max_char_buffer else none⟩

/-- The Run Extraction button, app.py line 395: disabled unless
all_ready, in which case the click builds the kwargs and invokes the
pipeline. -/
def run_click (s : AppState) : Option ExtractKwargs :=
  if all_ready s then some (mkExtractKwargs s) else none

/-- The substring invariant of one example sent to the pipeline. -/
def exampleValid (ex : LxExample) : Bool :=
  ex.extractions.all (fun e => containsSub e.extraction_text ex.text)

/-- The substring invariant of one stored example. -/
def storedExampleValid (ex : StoredExample) : Bool :=
  ex.extractions.all (fun e => containsSub e.extraction_text ex.text)

/-- C4: a run cannot start unless the prompt is non-empty after
stripping, at least one example is present, and an input document with
non-whitespace content is provided; the gate fires before the pipeline
is invoked. -/
theorem run_preconditions (s : AppState)
    (h : (run_click s).isSome = true) :
    (pyStrip s.prompt_value).isEmpty = false ∧
    s.examples ≠ [] ∧
    (∃ t, s.input_text = some t ∧ (pyStrip t).isEmpty = false) ∧
    run_click s = some (mkExtractKwargs s) := by
  have hready : all_ready s = true := by
    by_contra hr
    rw [run_click, if_neg hr] at h
    exact absurd h (by simp)
  have hparts := hready
  unfold all_ready at hparts
  simp only [Bool.and_eq_true] at hparts
  obtain ⟨⟨⟨hk, hp⟩, he⟩, hi⟩ := hparts
  refine ⟨?_, ?_, ?_, ?_⟩
  · unfold prompt_filled at hp
    simp only [Bool.and_eq_true, Bool.not_eq_true'] at hp
    exact hp.2
  · unfold has_examples at he
    simpa using he
  · unfold has_input at hi
    cases hin : s.input_text with
    | none => rw [hin] at hi; exact absurd hi (by simp)
    | some t =>
      rw [hin] at hi
      simp only [Bool.and_eq_true, Bool.not_eq_true'] at hi
      exact ⟨t, rfl, hi.2⟩
  · rw [run_click, if_pos hready]

/-- Witness for C4 at a concrete ready state. -/
theorem run_preconditions_witness :
    ((⟨Provider.gemini, some (("k").data), ("u").data, ("p").data,
        ("entity").data,
        [⟨("abc").data, [⟨("e").data, ("ab").data, []⟩]⟩],
        some (("doc").data), ("gemini-2.5-flash").data, 1, 1,
        0⟩ : AppState).examples ≠ []) := by
  have h := run_preconditions
    ⟨Provider.gemini, some (("k").data), ("u").data, ("p").data,
      ("entity").data,
      [⟨("abc").data, [⟨("e").data, ("ab").data, []⟩]⟩],
      some (("doc").data), ("gemini-2.5-flash").data, 1, 1, 0⟩
    (by decide)
  exact h.2.1

/-- C7: fence_output and use_schema_constraints reach the kwargs
unchanged from the provider configuration: Gemini fenced with schema,
OpenAI fenced without, Ollama neither. -/
theorem provider_flags_threaded (s : AppState) :
    ((mkExtractKwargs s).fence_output = fenceOutputOf s.api_provider ∧
     (mkExtractKwargs s).use_schema_constraints
        = useSchemaOf s.api_provider) ∧
    (fenceOutputOf Provider.gemini, useSchemaOf Provider.gemini)
        = (true, true) ∧
    (fenceOutputOf Provider.openai, useSchemaOf Provider.openai)
        = (true, false) ∧
    (fenceOutputOf Provider.ollama, useSchemaOf Provider.ollama)
        = (false, false) :=
  ⟨⟨rfl, rfl⟩, rfl, rfl, rfl⟩

/-! ### The shipped preset examples (app.py lines 46-117) and the
medical few-shot examples (medical_extraction.py lines 59-164) -/

def presetCharacterExamples : List StoredExample :=
  [⟨("ROMEO. But soft! What light through yonder window breaks? It is the east, and Juliet is the sun.").data,
    [⟨("character").data, ("ROMEO").data,
      [(("emotional_state").data, ("wonder").data),
       (("role").data, ("protagonist").data)]⟩,
     ⟨("character").data, ("Juliet").data,
      [(("emotional_state").data, ("referenced").data),
       (("role").data, ("love interest").data)]⟩]⟩]

def presetMedicalNerExamples : List StoredExample :=
  [⟨("Patient was prescribed Metformin 500mg orally twice daily. Reported mild nausea after first dose.").data,
    [⟨("medication").data, ("Metformin 500mg").data,
      [(("route").data, ("oral").data),
       (("frequency").data, ("twice daily").data)]⟩,
     ⟨("adverse_reaction").data, ("mild nausea").data,
      [(("severity").data, ("mild").data),
       (("timing").data, ("after first dose").data)]⟩]⟩]

def presetLegalExamples : List StoredExample :=
  [⟨("ACME Corp agrees to pay Widget Inc $50,000 by December 31, 2025 for consulting services.").data,
    [⟨("party").data, ("ACME Corp").data,
      [(("role").data, ("payer").data)]⟩,
     ⟨("party").data, ("Widget Inc").data,
      [(("role").data, ("payee").data)]⟩,
     ⟨("amount").data, ("$50,000").data,
      [(("currency").data, ("USD").data)]⟩,
     ⟨("date").data, ("December 31, 2025").data,
      [(("type").data, ("deadline").data)]⟩]⟩]

def presetFeedbackExamples : List StoredExample :=
  [⟨("Love the battery life on this phone! But the camera quality in low light is terrible and the app crashes frequently.").data,
    [⟨("feature").data, ("battery life").data,
      [(("sentiment").data, ("positive").data)]⟩,
     ⟨("issue").data, ("camera quality in low light is terrible").data,
      [(("component").data, ("camera").data),
       (("severity").data, ("major").data)]⟩,
     ⟨("issue").data, ("app crashes frequently").data,
      [(("component").data, ("software").data),
       (("severity").data, ("major").data)]⟩]⟩]

def presetKnowledgeExamples : List StoredExample :=
  [⟨("Albert Einstein developed the theory of relativity while working at the Swiss Patent Office in Bern.").data,
    [⟨("entity").data, ("Albert Einstein").data,
      [(("type").data, ("person").data),
       (("role").data, ("scientist").data)]⟩,
     ⟨("entity").data, ("theory of relativity").data,
      [(("type").data, ("scientific_theory").data)]⟩,
     ⟨("entity").data, ("Swiss Patent Office").data,
      [(("type").data, ("organization").data),
       (("location").data, ("Bern").data)]⟩,
     ⟨("relationship").data, ("developed").data,
      [(("subject").data, ("Albert Einstein").data),
       (("object").data, ("theory of relativity").data),
       (("type").data, ("created").data)]⟩]⟩]

/-- All example lists a preset can load into session state. -/
def allPresetExamples : List StoredExample :=
  presetCharacterExamples ++ presetMedicalNerExamples ++
    presetLegalExamples ++ presetFeedbackExamples ++
    presetKnowledgeExamples

def medicalExampleOne : StoredExample :=
  ⟨("Patient was prescribed Metformin 500mg orally twice daily for type 2 diabetes. She reported mild nausea after the first dose. Blood pressure was 142/90 mmHg. HbA1c level was 8.2%, above the normal range of 4.0-5.6%.").data,
   [⟨("medication").data, ("Metformin 500mg").data,
     [(("route").data, ("oral").data),
      (("frequency").data, ("twice daily").data),
      (("indication").data, ("type 2 diabetes").data)]⟩,
    ⟨("diagnosis").data, ("type 2 diabetes").data,
     [(("status").data, ("active").data)]⟩,
    ⟨("adverse_reaction").data, ("mild nausea").data,
     [(("severity").data, ("mild").data),
      (("timing").data, ("after the first dose").data),
      (("related_medication").data, ("Metformin").data)]⟩,
    ⟨("vital_sign").data, ("142/90 mmHg").data,
     [(("measurement").data, ("blood pressure").data),
      (("status").data, ("abnormal").data)]⟩,
    ⟨("lab_result").data, ("8.2%").data,
     [(("test").data, ("HbA1c").data),
      (("reference_range").data, ("4.0-5.6%").data),
      (("status").data, ("abnormal").data)]⟩]⟩

def medicalExampleTwo : StoredExample :=
  ⟨("Post-operative day 1 following laparoscopic cholecystectomy. Patient received Cefazolin 1g IV every 8 hours for infection prophylaxis and Morphine 2mg IV PRN for pain management. Temperature was 37.2°C, within normal limits. WBC count was 11,200/µL, slightly elevated above the reference range of 4,500-11,000/µL.").data,
   [⟨("procedure").data, ("laparoscopic cholecystectomy").data,
     [(("timing").data, ("post-operative day 1").data)]⟩,
    ⟨("medication").data, ("Cefazolin 1g").data,
     [(("route").data, ("IV").data),
      (("frequency").data, ("every 8 hours").data),
      (("indication").data, ("infection prophylaxis").data)]⟩,
    ⟨("medication").data, ("Morphine 2mg").data,
     [(("route").data, ("IV").data),
      (("frequency").data, ("PRN").data),
      (("indication").data, ("pain management").data)]⟩,
    ⟨("vital_sign").data, ("37.2°C").data,
     [(("measurement").data, ("temperature").data),
      (("status").data, ("normal").data)]⟩,
    ⟨("lab_result").data, ("11,200/µL").data,
     [(("test").data, ("WBC count").data),
      (("reference_range").data, ("4,500-11,000/µL").data),
      (("status").data, ("abnormal").data)]⟩]⟩

/-- The hard-coded few-shot examples of medical_extraction.py. -/
def medicalExamples : List StoredExample :=
  [medicalExampleOne, medicalExampleTwo]

/-- A session state holding an example whose extraction text is not a
substring of its text, with every run precondition satisfied. -/
def badState : AppState :=
  ⟨Provider.gemini, some (("k").data), ("http://localhost:11434").data,
   ("Extract parties.").data, ("party").data,
   [⟨("abc").data, [⟨("party").data, ("xyz").data, []⟩]⟩],
   some (("some document").data), ("gemini-2.5-flash").data, 1, 1, 0⟩

/-- C2 counterexample: a run starts (the gate passes and the kwargs are
built) although an example in the run's example list violates the
substring invariant: no validation runs before the run. -/
theorem run_revalidation_counterexample :
    (run_click badState).isSome = true ∧
    ¬(∀ ex ∈ (mkExtractKwargs badState).examples,
        exampleValid ex = true) := by
  decide

/-- C2 amended: the substring check runs only when an example is
authored interactively; neither run path re-validates, but every example
the Add-example handler accepts satisfies the invariant, and so do the
shipped preset examples and the medical script's built-in examples. -/
theorem example_validation_at_authoring_only :
    (∀ ex_text rows ex, addExample ex_text rows = some ex →
        storedExampleValid ex = true) ∧
    allPresetExamples.all storedExampleValid = true ∧
    medicalExamples.all storedExampleValid = true := by
  refine ⟨?_, by decide, by decide⟩
  intro ex_text rows ex h
  unfold storedExampleValid
  rw [List.all_eq_true]
  intro e he
  exact addExample_invariant ex_text rows ex h e he

/-! ### Chunker, modelled from the spec (section 4.2)

The chunking itself happens inside the external langextract library
(invoked through lx.extract) and is not under src/; only the
max_char_buffer threading at app.py lines 189-193 and 413-414 is
repository code. -/

/-- app.py lines 413-414: the max_char_buffer kwarg is added only when
the configured value is positive; 0 leaves it out (the spec's
"unbounded" reading, help text "0 = no chunking"). -/
def maxCharBufferKwarg (max_char_buffer : Nat) : Option Nat :=
  if 0 < max_char_buffer then some max_char_buffer else none

/-- One past the position of the last whitespace character, if any. -/
def lastWsCut : Str → Option Nat
  | [] => none
  | c :: rest =>
    match lastWsCut rest with
    | some k => some (k + 1)
    | none => if ws c then some 1 else none

/-- Modelled from the spec: the cut point for the next chunk under
budget B, preferring the whitespace boundary nearest the budget and
falling back to a hard cut at B. -/
def cutPoint (B : Nat) (doc : Str) : Nat :=
  match lastWsCut (doc.take B) with
  | some k => k
  | none => B

theorem lastWsCut_pos (w : Str) (k : Nat) (h : lastWsCut w = some k) :
    1 ≤ k := by
  induction w generalizing k with
  | nil => simp [lastWsCut] at h
  | cons c rest ih =>
    rw [lastWsCut] at h
    cases hr : lastWsCut rest with
    | some m =>
      rw [hr] at h
      simp only [Option.some.injEq] at h
      omega
    | none =>
      rw [hr] at h
      by_cases hc : ws c = true
      · rw [if_pos hc] at h
        simp only [Option.some.injEq] at h
        omega
      · rw [if_neg hc] at h
        exact absurd h (by simp)

theorem cutPoint_pos (B : Nat) (doc : Str) (hB : 0 < B) :
    1 ≤ cutPoint B doc := by
  unfold cutPoint
  cases hw : lastWsCut (doc.take B) with
  | none => exact hB
  | some k => exact lastWsCut_pos _ k hw

/-- Modelled from the spec: the Chunker splits a document into ordered
chunks bounded by the character budget B, cutting at the whitespace
boundary nearest the budget when one exists; B = 0 means no chunking. -/
def chunker (B : Nat) (doc : Str) : List Str :=
  if h : doc.length ≤ B ∨ B = 0 then [doc]
  else
    doc.take (cutPoint B doc) :: chunker B (doc.drop (cutPoint B doc))
termination_by doc.length
decreasing_by
  push_neg at h
  obtain ⟨hB, hB0⟩ := h
  have hk := cutPoint_pos B doc (Nat.pos_of_ne_zero hB0)
  rw [List.length_drop]
  omega

theorem chunker_flatten (B : Nat) (doc : Str) :
    (chunker B doc).flatten = doc := by
  generalize hn : doc.length = n
  induction n using Nat.strong_induction_on generalizing doc with
  | _ n ih =>
    rw [chunker]
    by_cases h : doc.length ≤ B ∨ B = 0
    · rw [dif_pos h]
      simp
    · rw [dif_neg h]
      push_neg at h
      obtain ⟨hB, hB0⟩ := h
      have hk := cutPoint_pos B doc (Nat.pos_of_ne_zero hB0)
      have hlt : (doc.drop (cutPoint B doc)).length < n := by
        rw [List.length_drop]
        omega
      have hrec := ih _ hlt (doc.drop (cutPoint B doc)) rfl
      calc (doc.take (cutPoint B doc)
              :: chunker B (doc.drop (cutPoint B doc))).flatten
          = doc.take (cutPoint B doc)
              ++ (chunker B (doc.drop (cutPoint B doc))).flatten := by
            simp [List.flatten]
        _ = doc.take (cutPoint B doc) ++ doc.drop (cutPoint B doc) := by
            rw [hrec]
        _ = doc := List.take_append_drop _ _

/-- The chunking a document undergoes for a configured chunk-size value,
through the kwarg threading of app.py. -/
def appChunks (max_char_buffer : Nat) (doc : Str) : List Str :=
  match maxCharBufferKwarg max_char_buffer with
  | some b => chunker b doc
  | none => chunker 0 doc

/-- C3: a configured chunk size of 0 yields exactly one chunk equal to
the whole document; any positive chunk size yields chunks whose in-order
concatenation reproduces the document exactly. -/
theorem chunking_reconstructs (doc : Str) :
    appChunks 0 doc = [doc] ∧
    ∀ B, 0 < B → (appChunks B doc).flatten = doc := by
  constructor
  · unfold appChunks maxCharBufferKwarg
    rw [if_neg (by omega)]
    rw [chunker, dif_pos (Or.inr rfl)]
  · intro B hB
    unfold appChunks maxCharBufferKwarg
    rw [if_pos hB]
    exact chunker_flatten B doc

/-- Witness for C3 with a concrete document and chunk size 3. -/
theorem chunking_reconstructs_witness :
    (appChunks 3 (("ab cd").data)).flatten = ("ab cd").data := by
  exact (chunking_reconstructs (("ab cd").data)).2 3 (by decide)

/-! ### Output parsing and grounding, modelled from the spec (section 4.5)

Grounding happens inside the external langextract library and is not
under src/; the model below follows the spec's state machine: each
candidate is searched for verbatim in the chunk's text at the first
occurrence whose character positions are not yet consumed, the absolute
span is the chunk's start offset plus the local offset, and candidates
that cannot be found verbatim are dropped. -/

/-- A chunk of the source document with its absolute offsets. -/
structure Chunk where
  start_offset : Nat
  end_offset : Nat
  text : Str
deriving DecidableEq

/-- A grounded extraction with absolute character span. -/
structure GroundedExtraction where
  extraction_class : Str
  extraction_text : Str
  attributes : List (Str × Str)
  char_start : Nat
  char_end : Nat
deriving DecidableEq

/-- Disjointness of two half-open position intervals. -/
def ivDisjoint (a b : Nat × Nat) : Bool := b.2 ≤ a.1 || a.2 ≤ b.1

/-- Modelled from the spec: the first position, scanning left to right,
where the candidate text occurs in the chunk text and whose interval is
disjoint from every already-consumed interval. -/
def findUnconsumed (pat text : Str) (consumed : List (Nat × Nat)) :
    Option Nat :=
  (List.range (text.length + 1)).find?
    (fun p => startsW pat (text.drop p) &&
      consumed.all (fun iv => ivDisjoint iv (p, p + pat.length)))

/-- Modelled from the spec: ground the parsed candidates one by one,
consuming matched intervals; unlocatable candidates are dropped. -/
def groundCandidates (chunk : Chunk) :
    List ExtractionSpec → List (Nat × Nat) → List GroundedExtraction
  | [], _ => []
  | c :: rest, consumed =>
    match findUnconsumed c.extraction_text chunk.text consumed with
    | some p =>
      ⟨c.extraction_class, c.extraction_text, c.attributes,
       chunk.start_offset + p,
       chunk.start_offset + p + c.extraction_text.length⟩ ::
        groundCandidates chunk rest
          ((p, p + c.extraction_text.length) :: consumed)
    | none => groundCandidates chunk rest consumed

/-- Grounding of a chunk's candidates, starting from no consumed
positions. -/
def groundChunk (chunk : Chunk) (cands : List ExtractionSpec) :
    List GroundedExtraction :=
  groundCandidates chunk cands []

theorem findUnconsumed_startsW (pat text : Str)
    (consumed : List (Nat × Nat)) (p : Nat)
    (h : findUnconsumed pat text consumed = some p) :
    startsW pat (text.drop p) = true := by
  have hall := List.find?_some h
  simp only [Bool.and_eq_true] at hall
  exact hall.1

/-- C8: every grounded extraction's absolute span slices the source
document to exactly its extraction text; unlocatable candidates are
dropped and never appear with invalid offsets. -/
theorem grounding_exactness (doc : Str) (chunk : Chunk)
    (cands : List ExtractionSpec)
    (hchunk : startsW chunk.text (doc.drop chunk.start_offset) = true) :
    ∀ g ∈ groundChunk chunk cands,
      slice doc g.char_start g.char_end = g.extraction_text := by
  unfold groundChunk
  suffices h : ∀ consumed g, g ∈ groundCandidates chunk cands consumed →
      slice doc g.char_start g.char_end = g.extraction_text from
    fun g hg => h [] g hg
  induction cands with
  | nil =>
    intro consumed g hg
    simp [groundCandidates] at hg
  | cons c rest ih =>
    intro consumed g hg
    cases hf : findUnconsumed c.extraction_text chunk.text consumed with
    | none =>
      rw [groundCandidates, hf] at hg
      exact ih consumed g hg
    | some p =>
      rw [groundCandidates, hf] at hg
      rcases List.mem_cons.mp hg with rfl | hg
      · have hsw : startsW c.extraction_text (chunk.text.drop p) = true :=
          findUnconsumed_startsW _ _ _ p hf
        rcases (startsW_iff _ _).mp hchunk with ⟨v, hv⟩
        show slice doc (chunk.start_offset + p)
            (chunk.start_offset + p + c.extraction_text.length)
          = c.extraction_text
        unfold slice
        have h1 : chunk.start_offset + p + c.extraction_text.length
            - (chunk.start_offset + p) = c.extraction_text.length := by
          omega
        rw [h1]
        have h2 : doc.drop (chunk.start_offset + p)
            = (chunk.text ++ v).drop p := by
          rw [← hv, List.drop_drop, Nat.add_comm chunk.start_offset p]
        rw [h2]
        exact take_of_startsW _ _
          (startsW_drop_append c.extraction_text chunk.text v p hsw)
      · exact ih _ g hg

/-- Witness for C8: two identical candidates ground at the first two
distinct occurrences, and each span slices back to the text. -/
theorem grounding_exactness_witness :
    slice (("cat cat").data) 4 7 = ("cat").data := by
  have h := grounding_exactness (("cat cat").data)
    ⟨0, 7, ("cat cat").data⟩
    [⟨("animal").data, ("cat").data, []⟩,
     ⟨("animal").data, ("cat").data, []⟩]
    (by decide)
  exact h ⟨("animal").data, ("cat").data, [], 4, 7⟩ (by decide)

/-- Witness for C2's amended statement at a concrete authored example. -/
theorem example_validation_at_authoring_only_witness :
    storedExampleValid
      ⟨("abc").data,
       [⟨("entity").data, ("ab").data, [(("k").data, ("v").data)]⟩]⟩
      = true := by
  exact example_validation_at_authoring_only.1 ((" abc ").data)
    [⟨("entity").data, (" ab ").data, ("k=v").data⟩]
    ⟨("abc").data,
     [⟨("entity").data, ("ab").data, [(("k").data, ("v").data)]⟩]⟩
    (by decide)

/-! ### Extraction results, the JSON export, and the run handlers -/

/-- A result extraction as returned by the pipeline: attributes may be
None. -/
structure Extraction where
  extraction_class : Str
  extraction_text : Str
  attributes : Option (List (Str × Str))
deriving DecidableEq

/-- The annotated document result consumed by the app (result.text and
result.extractions). -/
structure AnnotatedResult where
  text : Str
  extractions : List Extraction
deriving DecidableEq

/-- A JSON value as serialised by json.dumps for the fields at hand:
a string, a string-to-string object, or null. -/
inductive JVal where
  | str (s : Str)
  | obj (kvs : List (Str × Str))
  | null
deriving DecidableEq

/-- Serialisation of a Python attributes field: None becomes null. -/
def jvalOfAttrs : Option (List (Str × Str)) → JVal
  | none => JVal.null
  | some a => JVal.obj a

/-- json_data, app.py line 480: one dict per extraction with the keys
class, text and attributes taken from the extraction's fields. -/
def json_data (extractions : List Extraction) : List (List (Str × JVal)) :=
  extractions.map (fun e =>
    [(("class").data, JVal.str e.extraction_class),
     (("text").data, JVal.str e.extraction_text),
     (("attributes").data, jvalOfAttrs e.attributes)])

/-- Lookup of a key in a JSON object. -/
def lookupKey : List (Str × JVal) → Str → Option JVal
  | [], _ => none
  | (k, v) :: rest, key => if k == key then some v else lookupKey rest key

/-- The record shape C6 claims for each exported object, stated from the
claim's words: exactly the keys class, text and attributes, mapped to
the extraction's fields. -/
def isFlatRecord (obj : List (Str × JVal)) (e : Extraction) : Prop :=
  obj.map Prod.fst
      = [("class").data, ("text").data, ("attributes").data] ∧
  lookupKey obj (("class").data) = some (JVal.str e.extraction_class) ∧
  lookupKey obj (("text").data) = some (JVal.str e.extraction_text) ∧
  lookupKey obj (("attributes").data) = some (jvalOfAttrs e.attributes)

/-- C6: the JSON export is a flat array with exactly one object per
extraction, each object holding exactly the keys class, text and
attributes with the extraction's field values; offsets are omitted. -/
theorem json_export_flat (exts : List Extraction) :
    (json_data exts).length = exts.length ∧
    ∀ i obj e, (json_data exts).get? i = some obj →
      exts.get? i = some e → isFlatRecord obj e := by
  constructor
  · simp [json_data]
  · intro i obj e hobj he
    unfold json_data at hobj
    rw [List.get?_map, he] at hobj
    simp only [Option.map_some'] at hobj
    obtain rfl := Option.some.inj hobj
    refine ⟨rfl, ?_, ?_, ?_⟩ <;> rfl

/-- Witness for C6 at a one-extraction list. -/
theorem json_export_flat_witness :
    isFlatRecord
      [(("class").data, JVal.str (("party").data)),
       (("text").data, JVal.str (("ACME").data)),
       (("attributes").data, JVal.null)]
      ⟨("party").data, ("ACME").data, none⟩ := by
  exact (json_export_flat [⟨("party").data, ("ACME").data, none⟩]).2
    0 _ _ (by decide) (by decide)

/-- A clinical note (medical_extraction.py CLINICAL_NOTES entries). -/
structure Note where
  id : Str
  title : Str
  text : Str
deriving DecidableEq

/-- Python `d[k] = d.get(k, 0) + 1` on a string-keyed counter dict. -/
def dictIncr (m : List (Str × Nat)) (k : Str) : List (Str × Nat) :=
  if m.any (fun p => p.1 == k) then
    m.map (fun p => if p.1 == k then (p.1, p.2 + 1) else p)
  else m ++ [(k, 1)]

/-- entities_by_class counting loop, medical_extraction.py 289-294. -/
def countByClass (exts : List Extraction) : List (Str × Nat) :=
  exts.foldl (fun m e => dictIncr m e.extraction_class) []

/-- The entity dict of medical_extraction.py lines 296-299: falsy
attributes are replaced by an empty dict. -/
def entityOf (e : Extraction) : List (Str × JVal) :=
  [(("class").data, JVal.str e.extraction_class),
   (("text").data, JVal.str e.extraction_text),
   (("attributes").data, JVal.obj ((e.attributes).getD []))]

/-- The structured dict built per note, medical_extraction.py 280-301. -/
structure StructuredResult where
  note_id : Str
  title : Str
  model : Str
  total_entities : Nat
  entities_by_class : List (Str × Nat)
  entities : List (List (Str × JVal))
deriving DecidableEq

/-- Processing of one note given the backend's extractions. -/
def structuredOf (model_id : Str) (backend : Note → List Extraction)
    (note : Note) : StructuredResult :=
  ⟨note.id, note.title, model_id, (backend note).length,
   countByClass (backend note), (backend note).map entityOf⟩

/-- The files written while processing one note: the jsonl save always
runs, the html only when lx.visualize succeeds (lines 313-329). -/
structure NoteOutput where
  jsonl_name : Str
  html : Option Str
deriving DecidableEq

def noteOutputOf (viz : Note → Except Str Str) (n : Note) : NoteOutput :=
  ⟨n.id ++ ("_extractions.jsonl").data,
   match viz n with
   | Except.ok h => some h
   | Except.error _ => none⟩

/-- Python `a or b` on optional strings. -/
def pyOr (a b : Option Str) : Option Str := if pyTruthy a then a else b

/-- run_extraction, medical_extraction.py lines 236-331: resolve the
credential from the argument or the environment, raise before touching
any note when it is missing, otherwise process every note with the
backend and record per-note outputs. -/
def run_extraction (notes : List Note) (model_id : Str)
    (api_key env_key : Option Str) (backend : Note → List Extraction)
    (viz : Note → Except Str Str) :
    Except Str (List StructuredResult × List NoteOutput) :=
  if pyTruthy (pyOr api_key env_key) = false then
    Except.error
      (("No API key found. Set LANGEXTRACT_API_KEY env var or pass api_key.").data)
  else
    Except.ok (notes.map (structuredOf model_id backend),
               notes.map (noteOutputOf viz))

/-- C5: without a credential in the argument or the environment,
run_extraction fails with the no-key error for every backend and
visualizer, so no backend call is made and no output is produced. -/
theorem run_extraction_requires_key (notes : List Note) (model_id : Str)
    (api_key env_key : Option Str)
    (hk : pyTruthy api_key = false) (he : pyTruthy env_key = false) :
    ∀ (backend : Note → List Extraction) (viz : Note → Except Str Str),
      run_extraction notes model_id api_key env_key backend viz
        = Except.error
            (("No API key found. Set LANGEXTRACT_API_KEY env var or pass api_key.").data) := by
  intro backend viz
  unfold run_extraction pyOr
  simp [hk, he]

/-- Witness for C5 with no key anywhere. -/
theorem run_extraction_requires_key_witness :
    run_extraction [] (("gemini-2.5-flash").data) none none
      (fun _ => []) (fun _ => Except.error (("x").data))
      = Except.error
          (("No API key found. Set LANGEXTRACT_API_KEY env var or pass api_key.").data) := by
  exact run_extraction_requires_key [] (("gemini-2.5-flash").data)
    none none (by decide) (by decide)
    (fun _ => []) (fun _ => Except.error (("x").data))

/-- The session state the Run Extraction handler leaves behind. -/
structure SessionState where
  extraction_result : Option AnnotatedResult
  results_path : Option Str
  visualization_html : Option Str
  error_shown : Option Str
deriving DecidableEq

/-- The Run Extraction try block, app.py lines 416-436: the result is
stored as soon as lx.extract returns, the results path after the jsonl
save, and a failure of lx.visualize is caught by the inner
try/except, which records None and does not reach the outer handler. -/
def runButtonHandler (extractOutcome : Except Str AnnotatedResult)
    (saveOutcome : Except Str Str) (vizOutcome : Str → Except Str Str) :
    SessionState :=
  match extractOutcome with
  | Except.error e => ⟨none, none, none, some e⟩
  | Except.ok r =>
    match saveOutcome with
    | Except.error e => ⟨some r, none, none, some e⟩
    | Except.ok path =>
      match vizOutcome path with
      | Except.ok h => ⟨some r, some path, some h, none⟩
      | Except.error _ => ⟨some r, some path, none, none⟩

/-- C9: a visualization failure is never fatal to a completed run: the
app keeps the extraction result and the results path and records the
visualization as absent; in the medical script the structured results
and JSONL outputs are independent of the visualizer, and a failing note
merely gets no html file. -/
theorem viz_failure_not_fatal (r : AnnotatedResult) (path : Str)
    (vizApp : Str → Except Str Str) (e : Str)
    (hviz : vizApp path = Except.error e) :
    runButtonHandler (Except.ok r) (Except.ok path) vizApp
        = ⟨some r, some path, none, none⟩ ∧
    (∀ notes model key env (backend : Note → List Extraction)
        (vizMed vizMed' : Note → Except Str Str),
      Except.map Prod.fst
          (run_extraction notes model key env backend vizMed)
        = Except.map Prod.fst
            (run_extraction notes model key env backend vizMed')) ∧
    (∀ (vizMed : Note → Except Str Str) (n : Note) (e' : Str),
      vizMed n = Except.error e' →
        noteOutputOf vizMed n
          = ⟨n.id ++ ("_extractions.jsonl").data, none⟩) := by
  refine ⟨?_, ?_, ?_⟩
  · have hred : runButtonHandler (Except.ok r) (Except.ok path) vizApp
        = match vizApp path with
          | Except.ok h =>
            (⟨some r, some path, some h, none⟩ : SessionState)
          | Except.error _ => ⟨some r, some path, none, none⟩ := rfl
    rw [hred, hviz]
  · intro notes model key env backend vizMed vizMed'
    unfold run_extraction
    by_cases hkey : pyTruthy (pyOr key env) = false
    · simp [hkey]
    · rw [if_neg hkey, if_neg hkey]
      rfl
  · intro vizMed n e' hn
    have hred : noteOutputOf vizMed n
        = ⟨n.id ++ ("_extractions.jsonl").data,
           match vizMed n with
           | Except.ok h => some h
           | Except.error _ => none⟩ := rfl
    rw [hred, hn]

/-- Witness for C9 with a concretely failing visualizer. -/
theorem viz_failure_not_fatal_witness :
    runButtonHandler
        (Except.ok (⟨("doc").data, []⟩ : AnnotatedResult))
        (Except.ok (("results.jsonl").data))
        (fun _ => Except.error (("boom").data))
      = ⟨some ⟨("doc").data, []⟩, some (("results.jsonl").data),
         none, none⟩ := by
  exact (viz_failure_not_fatal ⟨("doc").data, []⟩
    (("results.jsonl").data) (fun _ => Except.error (("boom").data))
    (("boom").data) rfl).1

end LangX
